import Mathlib

/-!
# A shallow embedding of the `workerpool` package

This file embeds the Go package `workerpool` (files `worker_pool.go`,
its tests, and the surrounding `config`/`cmd` orchestration) as a labelled
transition system over an explicit pool state, and proves the specified
properties of `NewWorkerPool`, `Submit`, `Stop` and the worker loop
`process` against it.

Modelling decisions, each tied to a line of the source:

* `taskQueue` (`make(chan Task, queueSize)`) is modelled as a bounded FIFO
  buffer (a `List` of task identifiers together with the fixed capacity
  `cap`).  A non-blocking send (`select { case p.taskQueue <- task: ...
  default: ... }`) succeeds exactly when the buffer has room; a receive
  takes the head of the buffer.  For the capacities this repository
  constructs (the `config` package clamps `QueueSize` to at least 1 and
  every test uses a positive size) this matches Go's buffered channels: a
  receiver only blocks on an empty buffer, so a direct sender-to-receiver
  handoff is the same as an append immediately followed by a dequeue.
* Tasks are opaque zero-argument closures; the pool never inspects them,
  so they are represented by identifiers (`Task := Nat`).  The hook
  `afterTaskHook` is kept as the boolean `hook != nil`, plus the ghost
  counter `hookFires` recording how often the worker loop invoked it.
* `ranTasks` and `submittedOk` are ghost history variables: the tasks a
  worker has finished running (in completion order) and the tasks for
  which `Submit` returned `nil`.
* The `context.WithCancel` pair is the flag `ctxDone`, set either by the
  `parentCancel` step (the caller cancels the context it passed to
  `NewWorkerPool`, as in `TestContextCancellation`) or by `Stop`'s call to
  `p.cancel()`.
* `Stop` holds the write lock for its whole body, so its flag updates
  (`isStopped = true`, `cancel()`, `close(taskQueue)`) are one atomic step
  (`Stop`); `p.workerWaitGroup.Wait()` returning is the separate step
  `stopRet`, enabled only once every worker has exited.  `Submit` holds
  the read lock, so it is one atomic step as well.
* A worker's `select` between `<-ctx.Done()` and `task, ok :=
  <-p.taskQueue` is nondeterministic when both are ready, so the step
  relation lets an idle worker exit on a cancelled context even while
  tasks remain queued — exactly Go's `select` semantics.
-/

namespace WorkerPool

/-- A task is an opaque zero-argument closure (`type Task func()`); the pool
never inspects it, so an identifier stands for it. -/
abbrev Task := Nat

/-- The two sentinel errors of the package:
`ErrPoolStopped = errors.New("error. Worker pool is stopped")` and
`ErrQueueFull = errors.New("error. Worker pool's queue is full")`. -/
inductive Err where
  | poolStopped
  | queueFull
deriving DecidableEq

/-- A worker goroutine is at the top of the `for { select ... } }` loop
(`idle`), executing a dequeued task (`busy t`), or returned (`exited`). -/
inductive WState where
  | idle
  | busy (t : Task)
  | exited
deriving DecidableEq

/-- The state of a `WorkerPool` value and its worker goroutines.

`cap`, `taskQueue`, `isStopped`, `ctxDone`/`closed`, `afterTaskHook` model
the struct fields (`taskQueue chan Task`, `isStopped bool`,
`cancel context.CancelFunc`, `afterTaskHook func()`); `stopReturned`,
`hookFires`, `ranTasks`, `submittedOk`, `workers` are ghost observations
of the goroutines (`workerWaitGroup`) and call history. -/
structure State where
  /-- the channel capacity fixed by `make(chan Task, queueSize)` -/
  cap : Nat
  /-- the tasks buffered in the channel, head = next to be received -/
  taskQueue : List Task
  /-- the struct field `isStopped` -/
  isStopped : Bool
  /-- whether `close(p.taskQueue)` has run -/
  closed : Bool
  /-- whether the pool's context is cancelled (parent cancel or `p.cancel()`) -/
  ctxDone : Bool
  /-- whether a call to `Stop` has passed `p.workerWaitGroup.Wait()` and returned -/
  stopReturned : Bool
  /-- whether a non-nil `hook` was passed to `NewWorkerPool` -/
  afterTaskHook : Bool
  /-- ghost: how many times a worker ran `p.afterTaskHook()` -/
  hookFires : Nat
  /-- ghost: the tasks workers have finished running, in completion order -/
  ranTasks : List Task
  /-- ghost: the tasks for which `Submit` returned `nil`, in call order -/
  submittedOk : List Task
  /-- one entry per goroutine spawned by `NewWorkerPool` -/
  workers : List WState
deriving DecidableEq

/-- `NewWorkerPool(ctx, numOfWorkers, queueSize, hook)`: fresh flags, an
empty queue of capacity `queueSize`, and `numOfWorkers` goroutines running
`p.process(ctx)` (the loop `for i := 0; i < numOfWorkers; i++` spawns none
when `numOfWorkers <= 0`; `numOfWorkers` is a Go `int`, hence `Int` here).
No argument validation is performed by the source. -/
def NewWorkerPool (numOfWorkers : Int) (queueSize : Nat) (hook : Bool) : State where
  cap := queueSize
  taskQueue := []
  isStopped := false
  closed := false
  ctxDone := false
  stopReturned := false
  afterTaskHook := hook
  hookFires := 0
  ranTasks := []
  submittedOk := []
  workers := List.replicate numOfWorkers.toNat .idle

/-- `Submit(task)`: under `p.mu.RLock()`, return `ErrPoolStopped` if
`p.isStopped`; otherwise the non-blocking send
`select { case p.taskQueue <- task: return nil; default: return ErrQueueFull }`. -/
def Submit (s : State) (t : Task) : State × Option Err :=
  if s.isStopped then (s, some .poolStopped)
  else if s.taskQueue.length < s.cap then
    ({ s with taskQueue := s.taskQueue ++ [t], submittedOk := s.submittedOk ++ [t] }, none)
  else (s, some .queueFull)

/-- `Stop()` up to (not including) `p.workerWaitGroup.Wait()`: under
`p.mu.Lock()`, return `nil` at once if `p.isStopped`; otherwise set
`p.isStopped = true`, run `p.cancel()` and `close(p.taskQueue)`.  The
returned `Option Err` is the value `Stop` returns (`nil` on both paths). -/
def Stop (s : State) : State × Option Err :=
  if s.isStopped then (s, none)
  else ({ s with isStopped := true, ctxDone := true, closed := true }, none)

/-- Every spawned worker goroutine has returned
(`p.workerWaitGroup.Wait()` would not block). -/
def allExited (s : State) : Prop := ∀ w ∈ s.workers, w = WState.exited

instance (s : State) : Decidable (allExited s) := by
  unfold allExited; infer_instance

/-- The events of the system: the public calls, the parent context being
cancelled by the caller, and the branches of a worker's `select`. -/
inductive Label where
  | submit (t : Task)
  | stopCall
  | stopRet
  | parentCancel
  | take (i : Nat)
  | finish (i : Nat)
  | exitCtx (i : Nat)
  | exitClosed (i : Nat)
deriving DecidableEq

/-- One atomic event of the pool.  Worker steps mirror `process`:

```go
for {
    select {
    case <-ctx.Done():
        return
    case task, ok := <-p.taskQueue:
        if !ok { return }
        task()
        if p.afterTaskHook != nil { p.afterTaskHook() }
    }
}
```

`take` is the receive with `ok = true` (buffer nonempty, possible whether
or not the channel is closed), `exitClosed` the receive with `ok = false`
(closed and drained), `exitCtx` the `<-ctx.Done()` branch (enabled
whenever the context is cancelled — Go picks among ready `select` cases
nondeterministically), and `finish` is `task()` completing followed by the
hook call. -/
inductive Step : State → Label → State → Prop where
  | submit (s : State) (t : Task) (s' : State)
      (hs : s' = (Submit s t).1) :
      Step s (.submit t) s'
  | stopCall (s s' : State)
      (hs : s' = (Stop s).1) :
      Step s .stopCall s'
  | stopRet (s s' : State)
      (hstop : s.isStopped = true) (hall : allExited s)
      (hs : s' = { s with stopReturned := true }) :
      Step s .stopRet s'
  | parentCancel (s s' : State)
      (hs : s' = { s with ctxDone := true }) :
      Step s .parentCancel s'
  | take (s : State) (i : Nat) (t : Task) (rest : List Task) (s' : State)
      (hw : s.workers.get? i = some .idle)
      (hq : s.taskQueue = t :: rest)
      (hs : s' = { s with taskQueue := rest, workers := s.workers.set i (.busy t) }) :
      Step s (.take i) s'
  | finish (s : State) (i : Nat) (t : Task) (s' : State)
      (hw : s.workers.get? i = some (.busy t))
      (hs : s' = { s with workers := s.workers.set i .idle,
                          ranTasks := s.ranTasks ++ [t],
                          hookFires := s.hookFires +
                            (if s.afterTaskHook = true then 1 else 0) }) :
      Step s (.finish i) s'
  | exitCtx (s : State) (i : Nat) (s' : State)
      (hw : s.workers.get? i = some .idle)
      (hctx : s.ctxDone = true)
      (hs : s' = { s with workers := s.workers.set i .exited }) :
      Step s (.exitCtx i) s'
  | exitClosed (s : State) (i : Nat) (s' : State)
      (hw : s.workers.get? i = some .idle)
      (hcl : s.closed = true)
      (hq : s.taskQueue = [])
      (hs : s' = { s with workers := s.workers.set i .exited }) :
      Step s (.exitClosed i) s'

/-- `Reach s s'`: `s'` is obtained from `s` by finitely many steps. -/
inductive Reach : State → State → Prop where
  | refl (s : State) : Reach s s
  | tail {s s' s'' : State} {l : Label} (hr : Reach s s') (hst : Step s' l s'') :
      Reach s s''

/-- A state-predicate preserved by every step holds at every state
reachable from one where it holds. -/
theorem Reach.preserve (P : State → Prop)
    (hstep : ∀ s l s', Step s l s' → P s → P s') :
    ∀ {s s'}, Reach s s' → P s → P s' := by
  intro s s' hr
  induction hr with
  | refl => exact id
  | tail _ hst ih => exact fun h => hstep _ _ _ hst (ih h)

/-! ## Per-step frame lemmas: fields no event ever changes -/

/-- No event resizes the queue's capacity (`make` fixes it once). -/
theorem Step.cap_eq {s : State} {l : Label} {s' : State} (h : Step s l s') :
    s'.cap = s.cap := by
  cases h with
  | submit t s' hs =>
      subst hs; unfold Submit; split
      · rfl
      · split <;> rfl
  | stopCall s' hs => subst hs; unfold Stop; split <;> rfl
  | stopRet s' hstop hall hs => subst hs; rfl
  | parentCancel s' hs => subst hs; rfl
  | take i t rest s' hw hq hs => subst hs; rfl
  | finish i t s' hw hs => subst hs; rfl
  | exitCtx i s' hw hctx hs => subst hs; rfl
  | exitClosed i s' hw hcl hq hs => subst hs; rfl

/-- No event changes whether a hook was installed at construction. -/
theorem Step.hook_eq {s : State} {l : Label} {s' : State} (h : Step s l s') :
    s'.afterTaskHook = s.afterTaskHook := by
  cases h with
  | submit t s' hs =>
      subst hs; unfold Submit; split
      · rfl
      · split <;> rfl
  | stopCall s' hs => subst hs; unfold Stop; split <;> rfl
  | stopRet s' hstop hall hs => subst hs; rfl
  | parentCancel s' hs => subst hs; rfl
  | take i t rest s' hw hq hs => subst hs; rfl
  | finish i t s' hw hs => subst hs; rfl
  | exitCtx i s' hw hctx hs => subst hs; rfl
  | exitClosed i s' hw hcl hq hs => subst hs; rfl

/-- No event spawns or removes a worker goroutine. -/
theorem Step.workers_length_eq {s : State} {l : Label} {s' : State} (h : Step s l s') :
    s'.workers.length = s.workers.length := by
  cases h with
  | submit t s' hs =>
      subst hs; unfold Submit; split
      · rfl
      · split <;> rfl
  | stopCall s' hs => subst hs; unfold Stop; split <;> rfl
  | stopRet s' hstop hall hs => subst hs; rfl
  | parentCancel s' hs => subst hs; rfl
  | take i t rest s' hw hq hs => subst hs; simp [List.length_set]
  | finish i t s' hw hs => subst hs; simp [List.length_set]
  | exitCtx i s' hw hctx hs => subst hs; simp [List.length_set]
  | exitClosed i s' hw hcl hq hs => subst hs; simp [List.length_set]

/-! ## The `isStopped` flag -/

/-- Once `isStopped` is set, no event clears it. -/
theorem Step.isStopped_mono {s : State} {l : Label} {s' : State} (h : Step s l s')
    (hst : s.isStopped = true) : s'.isStopped = true := by
  cases h with
  | submit t s' hs => subst hs; simp [Submit, hst]
  | stopCall s' hs => subst hs; simp [Stop, hst]
  | stopRet s' hstop hall hs => subst hs; exact hst
  | parentCancel s' hs => subst hs; exact hst
  | take i t rest s' hw hq hs => subst hs; exact hst
  | finish i t s' hw hs => subst hs; exact hst
  | exitCtx i s' hw hctx hs => subst hs; exact hst
  | exitClosed i s' hw hcl hq hs => subst hs; exact hst

/-- The only event that turns `isStopped` from false to true is a call to
`Stop` (line `p.isStopped = true`). -/
theorem Step.isStopped_flip {s : State} {l : Label} {s' : State} (h : Step s l s')
    (h0 : s.isStopped = false) (h1 : s'.isStopped = true) : l = Label.stopCall := by
  cases h with
  | submit t s' hs =>
      subst hs; unfold Submit at h1
      rw [h0] at h1
      simp only [Bool.false_eq_true, if_false] at h1
      split at h1 <;> simp_all
  | stopCall s' hs => rfl
  | stopRet s' hstop hall hs => subst hs; simp_all
  | parentCancel s' hs => subst hs; simp_all
  | take i t rest s' hw hq hs => subst hs; simp_all
  | finish i t s' hw hs => subst hs; simp_all
  | exitCtx i s' hw hctx hs => subst hs; simp_all
  | exitClosed i s' hw hcl hq hs => subst hs; simp_all

/-! ## Invariants preserved by every step -/

/-- The queue never grows past its capacity: `Submit` appends only after
checking `s.taskQueue.length < s.cap` (the non-blocking send), and every
other event leaves the queue alone or shortens it. -/
theorem Step.queue_le {s : State} {l : Label} {s' : State} (h : Step s l s')
    (hle : s.taskQueue.length ≤ s.cap) : s'.taskQueue.length ≤ s'.cap := by
  cases h with
  | submit t s' hs =>
      subst hs; unfold Submit
      split
      · exact hle
      · split
        · next hlt => simpa using hlt
        · exact hle
  | stopCall s' hs => subst hs; unfold Stop; split <;> simpa using hle
  | stopRet s' hstop hall hs => subst hs; exact hle
  | parentCancel s' hs => subst hs; exact hle
  | take i t rest s' hw hq hs =>
      subst hs
      simp only
      rw [hq] at hle
      simp at hle
      omega
  | finish i t s' hw hs => subst hs; exact hle
  | exitCtx i s' hw hctx hs => subst hs; exact hle
  | exitClosed i s' hw hcl hq hs => subst hs; exact hle

/-- Once every worker has exited, later events keep them exited and the
list of executed tasks frozen: there is no goroutine left to dequeue or
run anything. -/
theorem Step.allExited_frozen {s : State} {l : Label} {s' : State} (h : Step s l s')
    (hall : allExited s) : allExited s' ∧ s'.ranTasks = s.ranTasks := by
  cases h with
  | submit t s' hs =>
      subst hs; unfold Submit
      split
      · exact ⟨hall, rfl⟩
      · split
        · exact ⟨hall, rfl⟩
        · exact ⟨hall, rfl⟩
  | stopCall s' hs =>
      subst hs; unfold Stop; split
      · exact ⟨hall, rfl⟩
      · exact ⟨hall, rfl⟩
  | stopRet s' hstop hall' hs => subst hs; exact ⟨hall, rfl⟩
  | parentCancel s' hs => subst hs; exact ⟨hall, rfl⟩
  | take i t rest s' hw hq hs =>
      exact absurd (hall _ (List.get?_mem hw)) (by simp)
  | finish i t s' hw hs =>
      exact absurd (hall _ (List.get?_mem hw)) (by simp)
  | exitCtx i s' hw hctx hs =>
      exact absurd (hall _ (List.get?_mem hw)) (by simp)
  | exitClosed i s' hw hcl hq hs =>
      exact absurd (hall _ (List.get?_mem hw)) (by simp)

/-- Along any run starting from a state whose workers have all exited, the
list of executed tasks never changes: whatever sits in the queue there is
never run. -/
theorem Reach.ranTasks_frozen {s s' : State} (hr : Reach s s') (hall : allExited s) :
    s'.ranTasks = s.ranTasks ∧ allExited s' := by
  induction hr with
  | refl => exact ⟨rfl, hall⟩
  | tail _ hst ih =>
      rcases ih with ⟨heq, hall'⟩
      rcases hst.allExited_frozen hall' with ⟨hall'', heq'⟩
      exact ⟨heq'.trans heq, hall''⟩

/-- From this state on, no task is ever run: the set of executed tasks can
never change again. -/
def RanFrozen (s : State) : Prop :=
  ∀ s', Reach s s' → s'.ranTasks = s.ranTasks

/-- `Stop` only returns after `p.workerWaitGroup.Wait()`: in any state
where some `Stop` call has returned, `isStopped` is set and every worker
has exited. -/
theorem Step.stopReturned_inv {s : State} {l : Label} {s' : State} (h : Step s l s')
    (hP : s.stopReturned = true → s.isStopped = true ∧ allExited s) :
    s'.stopReturned = true → s'.isStopped = true ∧ allExited s' := by
  cases h with
  | submit t s' hs =>
      subst hs; unfold Submit
      split
      · exact hP
      · split
        · intro hr
          rcases hP hr with ⟨h1, h2⟩
          exact ⟨h1, h2⟩
        · exact hP
  | stopCall s' hs =>
      subst hs; unfold Stop
      split
      · exact hP
      · intro hr
        next hns =>
          rcases hP hr with ⟨h1, _⟩
          simp [h1] at hns
  | stopRet s' hstop hall hs =>
      subst hs; intro _; exact ⟨hstop, hall⟩
  | parentCancel s' hs => subst hs; exact hP
  | take i t rest s' hw hq hs =>
      subst hs; intro hr
      rcases hP hr with ⟨_, hall⟩
      exact absurd (hall _ (List.get?_mem hw)) (by simp)
  | finish i t s' hw hs =>
      subst hs; intro hr
      rcases hP hr with ⟨_, hall⟩
      exact absurd (hall _ (List.get?_mem hw)) (by simp)
  | exitCtx i s' hw hctx hs =>
      subst hs; intro hr
      rcases hP hr with ⟨h1, hall⟩
      refine ⟨h1, fun w hw' => ?_⟩
      rcases List.mem_or_eq_of_mem_set hw' with hmem | heq
      · exact hall _ hmem
      · exact heq
  | exitClosed i s' hw hcl hq hs =>
      subst hs; intro hr
      rcases hP hr with ⟨h1, hall⟩
      refine ⟨h1, fun w hw' => ?_⟩
      rcases List.mem_or_eq_of_mem_set hw' with hmem | heq
      · exact hall _ hmem
      · exact heq

/-- The hook fires exactly once per executed task (`finish` is the only
event touching `hookFires` or `ranTasks`, and it bumps both together when
a hook is installed), and never fires when no hook was installed. -/
theorem Step.hookFires_inv {s : State} {l : Label} {s' : State} (h : Step s l s')
    (hP : s.hookFires = if s.afterTaskHook = true then s.ranTasks.length else 0) :
    s'.hookFires = if s'.afterTaskHook = true then s'.ranTasks.length else 0 := by
  cases h with
  | submit t s' hs =>
      subst hs; unfold Submit
      split
      · exact hP
      · split
        · exact hP
        · exact hP
  | stopCall s' hs => subst hs; unfold Stop; split <;> exact hP
  | stopRet s' hstop hall hs => subst hs; exact hP
  | parentCancel s' hs => subst hs; exact hP
  | take i t rest s' hw hq hs => subst hs; exact hP
  | finish i t s' hw hs =>
      subst hs
      simp only [List.length_append, List.length_cons, List.length_nil]
      rcases hb : s.afterTaskHook with _ | _ <;> simp [hb] at hP ⊢ <;> omega
  | exitCtx i s' hw hctx hs => subst hs; exact hP
  | exitClosed i s' hw hcl hq hs => subst hs; exact hP

/-- The channel is closed only by `Stop`, which sets `isStopped` in the
same critical section — so `Submit` can never attempt a send on a closed
channel (which would panic in Go). -/
theorem Step.closed_imp_stopped {s : State} {l : Label} {s' : State} (h : Step s l s')
    (hP : s.closed = true → s.isStopped = true) :
    s'.closed = true → s'.isStopped = true := by
  cases h with
  | submit t s' hs =>
      subst hs; unfold Submit
      split
      · exact hP
      · split <;> exact hP
  | stopCall s' hs => subst hs; unfold Stop; split <;> simp_all
  | stopRet s' hstop hall hs => subst hs; simpa using hP
  | parentCancel s' hs => subst hs; simpa using hP
  | take i t rest s' hw hq hs => subst hs; exact hP
  | finish i t s' hw hs => subst hs; exact hP
  | exitCtx i s' hw hctx hs => subst hs; exact hP
  | exitClosed i s' hw hcl hq hs => subst hs; exact hP

/-! ## Invariants of every state reachable from construction -/

/-- The capacity passed to `make(chan Task, queueSize)` is immutable. -/
theorem reach_cap_eq {n : Int} {c : Nat} {h0 : Bool} {s : State}
    (hr : Reach (NewWorkerPool n c h0) s) : s.cap = c :=
  Reach.preserve (fun x => x.cap = c)
    (fun _ _ _ hst hp => hst.cap_eq.trans hp) hr rfl

/-- Whether a hook was installed is immutable after construction. -/
theorem reach_hook_eq {n : Int} {c : Nat} {h0 : Bool} {s : State}
    (hr : Reach (NewWorkerPool n c h0) s) : s.afterTaskHook = h0 :=
  Reach.preserve (fun x => x.afterTaskHook = h0)
    (fun _ _ _ hst hp => hst.hook_eq.trans hp) hr rfl

/-- The pool always has exactly the goroutines `NewWorkerPool` spawned:
one per loop iteration of `for i := 0; i < numOfWorkers; i++`. -/
theorem reach_workers_length {n : Int} {c : Nat} {h0 : Bool} {s : State}
    (hr : Reach (NewWorkerPool n c h0) s) : s.workers.length = n.toNat :=
  Reach.preserve (fun x => x.workers.length = n.toNat)
    (fun _ _ _ hst hp => hst.workers_length_eq.trans hp) hr
    (by simp [NewWorkerPool])

/-- I3 of the data model: the queue never holds more than its capacity. -/
theorem reach_queue_le {n : Int} {c : Nat} {h0 : Bool} {s : State}
    (hr : Reach (NewWorkerPool n c h0) s) : s.taskQueue.length ≤ s.cap :=
  Reach.preserve (fun x => x.taskQueue.length ≤ x.cap)
    (fun _ _ _ hst hp => hst.queue_le hp) hr (by simp [NewWorkerPool])

/-- Whenever a `Stop` call has returned, the pool is flagged stopped and
every worker goroutine has exited. -/
theorem reach_stopReturned {n : Int} {c : Nat} {h0 : Bool} {s : State}
    (hr : Reach (NewWorkerPool n c h0) s) :
    s.stopReturned = true → s.isStopped = true ∧ allExited s :=
  Reach.preserve (fun x => x.stopReturned = true → x.isStopped = true ∧ allExited x)
    (fun _ _ _ hst hp => hst.stopReturned_inv hp) hr (by simp [NewWorkerPool])

/-- The hook has fired exactly once per executed task when installed, and
never when not installed. -/
theorem reach_hookFires {n : Int} {c : Nat} {h0 : Bool} {s : State}
    (hr : Reach (NewWorkerPool n c h0) s) :
    s.hookFires = if s.afterTaskHook = true then s.ranTasks.length else 0 :=
  Reach.preserve
    (fun x => x.hookFires = if x.afterTaskHook = true then x.ranTasks.length else 0)
    (fun _ _ _ hst hp => hst.hookFires_inv hp) hr (by simp [NewWorkerPool])

/-- The channel can only be closed once `isStopped` is set, so `Submit`'s
non-blocking send never runs on a closed channel. -/
theorem reach_closed_imp_stopped {n : Int} {c : Nat} {h0 : Bool} {s : State}
    (hr : Reach (NewWorkerPool n c h0) s) : s.closed = true → s.isStopped = true :=
  Reach.preserve (fun x => x.closed = true → x.isStopped = true)
    (fun _ _ _ hst hp => hst.closed_imp_stopped hp) hr (by simp [NewWorkerPool])

/-! ## Concrete runs used to instantiate the theorems -/

/-- The pool `NewWorkerPool(ctx, 1, 1, nil)` after `Stop()` has returned:
stopped, context cancelled, channel closed, the single worker exited. -/
def stoppedPool : State :=
  ⟨1, [], true, true, true, true, false, 0, [], [], [.exited]⟩

/-- `stoppedPool` is reached by: `Stop()` begins (flags set), the worker's
`select` takes `<-ctx.Done()` and the goroutine returns, `Wait()` returns. -/
theorem reach_stoppedPool : Reach (NewWorkerPool 1 1 false) stoppedPool := by
  have h1 : Step (NewWorkerPool 1 1 false) Label.stopCall
      (⟨1, [], true, true, true, false, false, 0, [], [], [.idle]⟩ : State) :=
    Step.stopCall _ _ (by decide)
  have h2 : Step (⟨1, [], true, true, true, false, false, 0, [], [], [.idle]⟩ : State)
      (Label.exitCtx 0) (⟨1, [], true, true, true, false, false, 0, [], [], [.exited]⟩ : State) :=
    Step.exitCtx _ 0 _ (by decide) (by decide) (by decide)
  have h3 : Step (⟨1, [], true, true, true, false, false, 0, [], [], [.exited]⟩ : State)
      Label.stopRet stoppedPool :=
    Step.stopRet _ _ (by decide) (by decide) (by decide)
  exact Reach.tail (Reach.tail (Reach.tail (Reach.refl _) h1) h2) h3

/-! ## C1 -/

/-- C1: for every pool, after `Stop` has returned, every subsequent call
to `Submit` returns `ErrPoolStopped` and does not enqueue the task (the
resulting state is unchanged). -/
theorem submit_after_stop_returns_poolStopped {n : Int} {c : Nat} {h0 : Bool} {s : State}
    (hr : Reach (NewWorkerPool n c h0) s) (hret : s.stopReturned = true) (t : Task) :
    Submit s t = (s, some Err.poolStopped) := by
  rcases reach_stopReturned hr hret with ⟨hstop, -⟩
  unfold Submit
  rw [hstop]
  simp

/-- C1 at a concrete input: the stopped one-worker pool rejects task 42
and is left unchanged. -/
theorem submit_after_stop_returns_poolStopped_witness :
    Submit stoppedPool 42 = (stoppedPool, some Err.poolStopped) :=
  submit_after_stop_returns_poolStopped reach_stoppedPool rfl 42

/-! ## C6 -/

/-- The state after one `Stop()` call (its return value is always `nil`). -/
def stopState (s : State) : State := (Stop s).1

/-- `k` consecutive `Stop()` calls. -/
def iterStop : Nat → State → State
  | 0, s => s
  | k + 1, s => iterStop k (stopState s)

/-- A second `Stop` hits the `if p.isStopped { return nil }` early return. -/
theorem stopState_idem (s : State) : stopState (stopState s) = stopState s := by
  unfold stopState Stop
  rcases hb : s.isStopped with _ | _ <;> simp [hb]

/-- C6: `Stop` is idempotent and always returns success: every call
returns `nil`, a call on an already-stopped pool returns immediately with
no effect, and any sequence of `k + 1 ≥ 1` consecutive `Stop` calls leaves
the pool in the same state as a single call. -/
theorem stop_idempotent (s : State) (k : Nat) :
    (Stop s).2 = none ∧
    (s.isStopped = true → Stop s = (s, none)) ∧
    iterStop (k + 1) s = stopState s := by
  refine ⟨?_, ?_, ?_⟩
  · unfold Stop; split <;> rfl
  · intro hstop; unfold Stop; rw [hstop]; simp
  · induction k generalizing s with
    | zero => rfl
    | succ k ih =>
        show iterStop (k + 1) (stopState s) = stopState s
        rw [ih (stopState s), stopState_idem]

/-! ## C7 -/

/-- C7: the stopped flag is monotonic: it is false at construction, only a
`Stop` call ever turns it from false to true, no event turns it back, and
a `Stop` on an already-stopped pool changes nothing (so the flip happens
exactly once, in the first effective `Stop`). -/
theorem isStopped_monotonic {n : Int} {c : Nat} {h0 : Bool}
    {s : State} {l : Label} {s' : State} (hst : Step s l s') :
    (NewWorkerPool n c h0).isStopped = false ∧
    (s.isStopped = true → s'.isStopped = true) ∧
    (s.isStopped = false → s'.isStopped = true → l = Label.stopCall) ∧
    (s.isStopped = true → (Stop s).1 = s) := by
  refine ⟨rfl, hst.isStopped_mono, hst.isStopped_flip, ?_⟩
  intro hstop; unfold Stop; rw [hstop]; simp

/-- C7 at a concrete input: the first `Stop` on a fresh one-worker pool. -/
theorem isStopped_monotonic_witness :
    (NewWorkerPool 1 1 false).isStopped = false ∧
    ((NewWorkerPool 1 1 false).isStopped = true →
      (⟨1, [], true, true, true, false, false, 0, [], [], [.idle]⟩ : State).isStopped = true) ∧
    ((NewWorkerPool 1 1 false).isStopped = false →
      (⟨1, [], true, true, true, false, false, 0, [], [], [.idle]⟩ : State).isStopped = true →
      Label.stopCall = Label.stopCall) ∧
    ((NewWorkerPool 1 1 false).isStopped = true → (Stop (NewWorkerPool 1 1 false)).1 = NewWorkerPool 1 1 false) :=
  isStopped_monotonic (Step.stopCall _ _ (by decide))

/-! ## C2 -/

/-- A sequence of consecutive `Submit` calls, returning the final state
and each call's result in order. -/
def submitAll (s : State) : List Task → State × List (Option Err)
  | [] => (s, [])
  | t :: ts =>
    let r := Submit s t
    let rest := submitAll r.1 ts
    (rest.1, r.2 :: rest.2)

/-- While the pool is not stopped and the queue has room for all of them,
consecutive `Submit` calls all succeed and append their tasks in order. -/
theorem submitAll_fills (ts : List Task) : ∀ s : State, s.isStopped = false →
    s.taskQueue.length + ts.length ≤ s.cap →
    submitAll s ts =
      ({ s with taskQueue := s.taskQueue ++ ts, submittedOk := s.submittedOk ++ ts },
        List.replicate ts.length none) := by
  induction ts with
  | nil =>
      intro s hns hle
      simp [submitAll]
  | cons t ts ih =>
      intro s hns hle
      have hlt : s.taskQueue.length < s.cap := by
        simp only [List.length_cons] at hle
        omega
      have hsub : Submit s t =
          ({ s with taskQueue := s.taskQueue ++ [t], submittedOk := s.submittedOk ++ [t] },
            none) := by
        unfold Submit
        rw [hns]
        simp [hlt]
      have ihs := ih { s with taskQueue := s.taskQueue ++ [t],
                              submittedOk := s.submittedOk ++ [t] }
        (by simpa using hns)
        (by simp only [List.length_append, List.length_cons, List.length_nil] at hle ⊢; omega)
      simp [submitAll, hsub, ihs, List.append_assoc, List.replicate_succ]

/-- C2: for a non-stopped pool, `Submit` is a non-blocking enqueue: with
room in the queue it appends the task and succeeds; with the queue at
capacity it returns `ErrQueueFull` and changes nothing; the queue never
exceeds its capacity; and from a fresh pool of capacity `c`, any `c`
consecutive submissions (no task dequeued in between) all succeed while
the `(c+1)`th returns `ErrQueueFull`. -/
theorem submit_backpressure {n : Int} {c : Nat} {h0 : Bool} (s : State) (t : Task)
    (ts : List Task) (hr : Reach (NewWorkerPool n c h0) s)
    (hrun : s.isStopped = false) (hts : ts.length = c) :
    (s.taskQueue.length < s.cap →
      Submit s t = ({ s with
        taskQueue := s.taskQueue ++ [t],
        submittedOk := s.submittedOk ++ [t] }, none)) ∧
    (s.taskQueue.length = s.cap → Submit s t = (s, some Err.queueFull)) ∧
    s.taskQueue.length ≤ s.cap ∧
    (submitAll (NewWorkerPool n c h0) ts).2 = List.replicate c none ∧
    (Submit (submitAll (NewWorkerPool n c h0) ts).1 t).2 = some Err.queueFull := by
  have hfill := submitAll_fills ts (NewWorkerPool n c h0) rfl
    (by simp [NewWorkerPool, hts])
  refine ⟨?_, ?_, reach_queue_le hr, ?_, ?_⟩
  · intro hlt
    unfold Submit
    rw [hrun]
    simp [hlt]
  · intro heq
    unfold Submit
    rw [hrun]
    simp [heq]
  · rw [hfill, hts]
  · rw [hfill]
    unfold Submit NewWorkerPool
    simp [hts]

/-- C2 at a concrete input: a fresh pool of capacity 2; the queue is
empty so task 9 would be appended, and after submitting tasks 1 and 2 the
third submission returns `ErrQueueFull`. -/
theorem submit_backpressure_witness :
    ((NewWorkerPool 1 2 false).taskQueue.length < (NewWorkerPool 1 2 false).cap →
      Submit (NewWorkerPool 1 2 false) 9 =
        ({ NewWorkerPool 1 2 false with
          taskQueue := (NewWorkerPool 1 2 false).taskQueue ++ [9],
          submittedOk := (NewWorkerPool 1 2 false).submittedOk ++ [9] }, none)) ∧
    ((NewWorkerPool 1 2 false).taskQueue.length = (NewWorkerPool 1 2 false).cap →
      Submit (NewWorkerPool 1 2 false) 9 = (NewWorkerPool 1 2 false, some Err.queueFull)) ∧
    (NewWorkerPool 1 2 false).taskQueue.length ≤ (NewWorkerPool 1 2 false).cap ∧
    (submitAll (NewWorkerPool 1 2 false) [1, 2]).2 = List.replicate 2 none ∧
    (Submit (submitAll (NewWorkerPool 1 2 false) [1, 2]).1 9).2 = some Err.queueFull :=
  submit_backpressure (NewWorkerPool 1 2 false) 9 [1, 2] (Reach.refl _) rfl rfl

/-! ## C3 -/

/-- C3: `Stop` does not return until all `workerCount` workers have
exited: the return event (`p.workerWaitGroup.Wait()` unblocking) is
enabled only when every worker has exited, and in any state where `Stop`
has returned, all of the `workerCount` spawned workers (exactly as many
as construction's loop started) have exited. -/
theorem stop_waits_for_all_workers {n : Int} {c : Nat} {h0 : Bool} {s : State}
    (hr : Reach (NewWorkerPool n c h0) s) (hret : s.stopReturned = true) :
    allExited s ∧ s.workers.length = n.toNat ∧
    (∀ s₁ s₂ : State, Step s₁ Label.stopRet s₂ → allExited s₁) := by
  refine ⟨(reach_stopReturned hr hret).2, reach_workers_length hr, ?_⟩
  intro s₁ s₂ hst
  cases hst with
  | stopRet s₂' hstop hall hs => exact hall

/-- C3 at a concrete input: the stopped one-worker pool. -/
theorem stop_waits_for_all_workers_witness :
    allExited stoppedPool ∧ stoppedPool.workers.length = (1 : Int).toNat ∧
    (∀ s₁ s₂ : State, Step s₁ Label.stopRet s₂ → allExited s₁) :=
  stop_waits_for_all_workers reach_stoppedPool rfl

/-! ## C8 -/

/-- C8: with a hook installed, workers have invoked it exactly once per
task dequeued and run (immediately after the task, in the same `finish`
event); with no hook installed it has never been invoked; and `Submit`
(in particular a rejected `Submit`) never invokes it. -/
theorem hook_fires_once_per_task {n : Int} {c : Nat} {h0 : Bool} {s : State}
    (hr : Reach (NewWorkerPool n c h0) s) (t : Task) :
    (s.afterTaskHook = true → s.hookFires = s.ranTasks.length) ∧
    (s.afterTaskHook = false → s.hookFires = 0) ∧
    ((Submit s t).1).hookFires = s.hookFires := by
  have hinv := reach_hookFires hr
  refine ⟨?_, ?_, ?_⟩
  · intro hh; rw [hinv, if_pos hh]
  · intro hh; rw [hinv]; simp [hh]
  · unfold Submit
    split
    · rfl
    · split <;> rfl

/-- The pool `NewWorkerPool(ctx, 1, 1, hook)` after submitting task 5,
the worker dequeuing it, running it and firing the hook once. -/
def ranPool : State :=
  ⟨1, [], false, false, false, false, true, 1, [5], [5], [.idle]⟩

/-- `ranPool` is reached by: `Submit(5)`, the worker receiving task 5,
then finishing it (running the installed hook). -/
theorem reach_ranPool : Reach (NewWorkerPool 1 1 true) ranPool := by
  have h1 : Step (NewWorkerPool 1 1 true) (Label.submit 5)
      (⟨1, [5], false, false, false, false, true, 0, [], [5], [.idle]⟩ : State) :=
    Step.submit _ 5 _ (by decide)
  have h2 : Step (⟨1, [5], false, false, false, false, true, 0, [], [5], [.idle]⟩ : State)
      (Label.take 0)
      (⟨1, [], false, false, false, false, true, 0, [], [5], [.busy 5]⟩ : State) :=
    Step.take _ 0 5 [] _ (by decide) (by decide) (by decide)
  have h3 : Step (⟨1, [], false, false, false, false, true, 0, [], [5], [.busy 5]⟩ : State)
      (Label.finish 0) ranPool :=
    Step.finish _ 0 5 _ (by decide) (by decide)
  exact Reach.tail (Reach.tail (Reach.tail (Reach.refl _) h1) h2) h3

/-- C8 at a concrete input: after one task ran with a hook installed, the
hook fired exactly once, and a further `Submit` does not fire it. -/
theorem hook_fires_once_per_task_witness :
    (ranPool.afterTaskHook = true → ranPool.hookFires = ranPool.ranTasks.length) ∧
    (ranPool.afterTaskHook = false → ranPool.hookFires = 0) ∧
    ((Submit ranPool 6).1).hookFires = ranPool.hookFires :=
  hook_fires_once_per_task reach_ranPool 6

/-! ## C4 -/

/-- The pool `NewWorkerPool(ctx, 1, 10, nil)` after `Submit(T)` returned
`nil`, `Stop()` was called, the worker's `select` picked `<-ctx.Done()`
and exited, and `Stop` returned — task `T` (id 0) still queued, never run. -/
def abandonedPool : State :=
  ⟨10, [0], true, true, true, true, false, 0, [], [0], [.exited]⟩

/-- C4 evidence: a legal execution in which a successfully submitted task
is never run.  `Submit` on the fresh pool returns `nil`; the pool then
reaches `abandonedPool`, where `Stop` has returned, the accepted task 0 is
still in the queue, no task was ever run — and `RanFrozen` shows no
continuation of this execution ever runs it (every worker has exited).
This contradicts the comment on `Stop` ("all tasks added to the queue are
executed") and the expectation of `TestStopWaitsForCompletion`. -/
theorem stop_abandons_queued_task :
    (Submit (NewWorkerPool 1 10 false) 0).2 = none ∧
    Reach (NewWorkerPool 1 10 false) abandonedPool ∧
    abandonedPool.stopReturned = true ∧
    abandonedPool.submittedOk = [0] ∧
    abandonedPool.taskQueue = [0] ∧
    abandonedPool.ranTasks = [] ∧
    RanFrozen abandonedPool := by
  have h1 : Step (NewWorkerPool 1 10 false) (Label.submit 0)
      (⟨10, [0], false, false, false, false, false, 0, [], [0], [.idle]⟩ : State) :=
    Step.submit _ 0 _ (by decide)
  have h2 : Step (⟨10, [0], false, false, false, false, false, 0, [], [0], [.idle]⟩ : State)
      Label.stopCall
      (⟨10, [0], true, true, true, false, false, 0, [], [0], [.idle]⟩ : State) :=
    Step.stopCall _ _ (by decide)
  have h3 : Step (⟨10, [0], true, true, true, false, false, 0, [], [0], [.idle]⟩ : State)
      (Label.exitCtx 0)
      (⟨10, [0], true, true, true, false, false, 0, [], [0], [.exited]⟩ : State) :=
    Step.exitCtx _ 0 _ (by decide) (by decide) (by decide)
  have h4 : Step (⟨10, [0], true, true, true, false, false, 0, [], [0], [.exited]⟩ : State)
      Label.stopRet abandonedPool :=
    Step.stopRet _ _ (by decide) (by decide) (by decide)
  refine ⟨by decide, ?_, rfl, rfl, rfl, rfl, ?_⟩
  · exact Reach.tail (Reach.tail (Reach.tail (Reach.tail (Reach.refl _) h1) h2) h3) h4
  · intro s' hr'
    exact (Reach.ranTasks_frozen hr' (by decide)).1

/-! ## C5 -/

/-- C5 counterexample: `NewWorkerPool(ctx, 0, 1, nil)` is not rejected —
it yields a pool with zero workers on which `Submit` still succeeds and
enqueues the task, so a non-positive worker count produces a usable pool. -/
theorem newWorkerPool_zero_workers_usable :
    (NewWorkerPool 0 1 false).workers = [] ∧
    (Submit (NewWorkerPool 0 1 false) 5).2 = none ∧
    (Submit (NewWorkerPool 0 1 false) 5).1.taskQueue = [5] := by
  decide

/-- C5 amended: construction performs no validation.  For every
`workerCount ≤ 0` (and any positive queue capacity), `NewWorkerPool`
still returns a pool — with zero workers — whose `Submit` accepts and
enqueues tasks; `workerCount ≥ 1` is only an unchecked caller obligation. -/
theorem newWorkerPool_no_validation (n : Int) (c : Nat) (h0 : Bool) (t : Task)
    (hn : n ≤ 0) (hc : 0 < c) :
    (NewWorkerPool n c h0).workers = [] ∧
    (Submit (NewWorkerPool n c h0) t).2 = none ∧
    (Submit (NewWorkerPool n c h0) t).1.taskQueue = [t] := by
  have hzero : n.toNat = 0 := Int.toNat_of_nonpos hn
  refine ⟨?_, ?_, ?_⟩ <;> simp [NewWorkerPool, Submit, hzero, hc]

/-- C5 amended, at a concrete input: `workerCount = -2`. -/
theorem newWorkerPool_no_validation_witness :
    (NewWorkerPool (-2) 1 false).workers = [] ∧
    (Submit (NewWorkerPool (-2) 1 false) 7).2 = none ∧
    (Submit (NewWorkerPool (-2) 1 false) 7).1.taskQueue = [7] :=
  newWorkerPool_no_validation (-2) 1 false 7 (by decide) (by decide)

/-! ## C10 -/

/-- The pool `NewWorkerPool(ctx, 1, 1, nil)` after the caller cancelled
the parent context and the worker exited via `<-ctx.Done()`: not stopped,
channel open, no worker left. -/
def cancelledPool : State :=
  ⟨1, [], false, false, true, false, false, 0, [], [], [.exited]⟩

/-- `cancelledPool` is reached by a parent-context cancellation followed
by the worker exiting (the scenario of `TestContextCancellation`). -/
theorem reach_cancelledPool : Reach (NewWorkerPool 1 1 false) cancelledPool := by
  have h1 : Step (NewWorkerPool 1 1 false) Label.parentCancel
      (⟨1, [], false, false, true, false, false, 0, [], [], [.idle]⟩ : State) :=
    Step.parentCancel _ _ (by decide)
  have h2 : Step (⟨1, [], false, false, true, false, false, 0, [], [], [.idle]⟩ : State)
      (Label.exitCtx 0) cancelledPool :=
    Step.exitCtx _ 0 _ (by decide) (by decide) (by decide)
  exact Reach.tail (Reach.tail (Reach.refl _) h1) h2

/-- C10: only `Stop` sets the stopped flag.  Cancelling the parent
context is always possible, leaves the pool not stopped, and lets every
idle worker exit via `<-ctx.Done()`; and in any reachable non-stopped
state whose workers have all exited, `Submit` with spare queue capacity
still succeeds and enqueues the task — which is then never run. -/
theorem cancel_leaves_pool_accepting {n : Int} {c : Nat} {h0 : Bool}
    (s₁ s₂ : State) (t : Task) (i : Nat)
    (hr₁ : Reach (NewWorkerPool n c h0) s₁) (hns₁ : s₁.isStopped = false)
    (hw : s₁.workers.get? i = some WState.idle)
    (hr₂ : Reach (NewWorkerPool n c h0) s₂) (hns₂ : s₂.isStopped = false)
    (hall : allExited s₂) (hroom : s₂.taskQueue.length < s₂.cap) :
    Step s₁ Label.parentCancel { s₁ with ctxDone := true } ∧
    ({ s₁ with ctxDone := true }).isStopped = false ∧
    Step { s₁ with ctxDone := true } (Label.exitCtx i)
      { s₁ with ctxDone := true, workers := s₁.workers.set i WState.exited } ∧
    (Submit s₂ t).2 = none ∧
    (Submit s₂ t).1.taskQueue = s₂.taskQueue ++ [t] ∧
    RanFrozen s₂ := by
  refine ⟨Step.parentCancel _ _ rfl, hns₁, ?_, ?_, ?_, ?_⟩
  · exact Step.exitCtx _ i _ hw rfl rfl
  · unfold Submit; rw [hns₂]; simp [hroom]
  · unfold Submit; rw [hns₂]; simp [hroom]
  · intro s' hr'
    exact (Reach.ranTasks_frozen hr' hall).1

/-- C10 at a concrete input: the `TestContextCancellation` scenario — the
fresh one-worker pool is cancelled, its worker exits, and the pool still
accepts task 3 although nothing will ever run it. -/
theorem cancel_leaves_pool_accepting_witness :
    Step (NewWorkerPool 1 1 false) Label.parentCancel
      (⟨1, [], false, false, true, false, false, 0, [], [], [.idle]⟩ : State) ∧
    (⟨1, [], false, false, true, false, false, 0, [], [], [.idle]⟩ : State).isStopped = false ∧
    Step (⟨1, [], false, false, true, false, false, 0, [], [], [.idle]⟩ : State)
      (Label.exitCtx 0) cancelledPool ∧
    (Submit cancelledPool 3).2 = none ∧
    (Submit cancelledPool 3).1.taskQueue = cancelledPool.taskQueue ++ [3] ∧
    RanFrozen cancelledPool :=
  cancel_leaves_pool_accepting (NewWorkerPool 1 1 false) cancelledPool 3 0
    (Reach.refl _) rfl (by decide) reach_cancelledPool rfl (by decide) (by decide)

end WorkerPool
